import Mathlib

/-!
Shallow embedding of the Kinesis connector core of this repository:
the split enumerator (`src/connector/src/kinesis/enumerator/client.rs`)
and the split reader (`src/connector/src/kinesis/source/reader.rs`).

Network calls of the AWS SDK are abstracted as an `Env` of pure
response functions; each call the reader makes is additionally recorded
in a trace of `Effect`s so that theorems can speak about which requests
were issued (and about the blocking sleep the source performs).
-/

set_option autoImplicit false

/-- `KinesisOffset` of `src/connector/src/kinesis/split.rs` (the spec's
`Position`): `None`, `Earliest`, `Latest`, `SequenceNumber`, `Timestamp`. -/
inductive KinesisOffset where
  | none
  | earliest
  | latest
  | sequenceNumber (seq : String)
  | timestamp (ts : Int)
  deriving Repr, DecidableEq

/-- `KinesisSplit`: one shard with optional start/end bounds. -/
structure KinesisSplit where
  shard_id : String
  start_position : KinesisOffset
  end_position : KinesisOffset
  deriving Repr, DecidableEq

/-- One Kinesis record.  The spec (§6) fixes that every record carries a
sequence number and a payload, so the sequence number is not optional here. -/
structure Record where
  sequence_number : String
  payload : String
  deriving Repr, DecidableEq

/-- A consumer-visible message, as built by
`SourceMessage::from(KinesisMessage::new(shard_id, record))`. -/
structure SourceMessage where
  shard_id : String
  sequence_number : String
  payload : String
  deriving Repr, DecidableEq

def mkMessage (shard_id : String) (rec : Record) : SourceMessage :=
  ⟨shard_id, rec.sequence_number, rec.payload⟩

/-- `GetRecordsOutput` of the AWS SDK: the fetched batch (optional, the
source applies `unwrap_or_default`) and the optional next shard iterator. -/
structure GetRecordsOutput where
  records : Option (List Record)
  next_shard_iterator : Option String
  deriving Repr, DecidableEq

/-- The `SdkError` cases the source's `next` distinguishes. -/
inductive SdkErr where
  | dispatchFailure (msg : String)
  | expiredIterator
  | throughputExceeded (msg : String)
  | otherErr (msg : String)
  deriving Repr, DecidableEq

/-- `ShardIteratorType` of the AWS SDK. -/
inductive ShardIteratorType where
  | trimHorizon
  | afterSequenceNumber
  | atTimestamp
  | latestType
  deriving Repr, DecidableEq

/-- A `get_shard_iterator` request, as assembled by the source. -/
structure ShardIteratorReq where
  stream_name : String
  shard_id : String
  iter_type : ShardIteratorType
  timestamp : Option Int
  seq_num : Option String
  deriving Repr, DecidableEq

/-- The upstream service, abstracted as pure response functions. -/
structure Env where
  getRecords : String → Except SdkErr GetRecordsOutput
  getShardIterator : ShardIteratorReq → Except String (Option String)

/-- The state of `KinesisSplitReader` (reader.rs lines 36-43). -/
structure KinesisSplitReader where
  stream_name : String
  shard_id : String
  latest_sequence_num : String
  shard_iter : Option String
  assigned_split : Option KinesisSplit
  deriving Repr, DecidableEq

/-- Requests the reader issues, recorded as an execution trace.
`sleepBlockingMs` records the `thread::sleep` of reader.rs line 96, which
blocks the OS thread it runs on (it is not an async timer). -/
inductive Effect where
  | fetch (iter : String)
  | sleepBlockingMs (ms : Nat)
  | getShardIter (req : ShardIteratorReq)
  deriving Repr, DecidableEq

/-- Errors `next` can return (reader.rs lines 60, 69, 75, 83, 86). -/
inductive ReaderError where
  | invalidShardIter (shard_id : String)
  | dispatch (msg : String)
  | renewErr (msg : String)
  | throughput (msg : String)
  | otherE (msg : String)
  deriving Repr, DecidableEq

/-- How an error is rendered to the caller: `invalidShardIter` is the
`format!("invalid shard iter, shard_id {}", ...)` of reader.rs line 60;
the remaining cases surface the underlying message unchanged
(`anyhow!(e)`, `anyhow::Error::msg(err)`, `anyhow!("{}", e)`). -/
def renderError : ReaderError → String
  | .invalidShardIter sid => "invalid shard iter, shard_id " ++ sid
  | .dispatch m => m
  | .renewErr m => m
  | .throughput m => m
  | .otherE m => m

/-- Outcome of one call to `next`: an emitted batch (`Ok(Some(..))`),
an error (`Err(..)`, the reader keeps the state it had when returning),
a panic (the `unwrap` of `assigned_split` on a non-empty batch), or fuel
exhaustion of the embedded loop. -/
inductive NextRes where
  | msgs (r : KinesisSplitReader) (ms : List SourceMessage)
  | fail (r : KinesisSplitReader) (e : ReaderError)
  | panicked
  | fuelOut (r : KinesisSplitReader)
  deriving Repr, DecidableEq

/-- Lexicographic comparison of character lists; on strings this is the
byte-lexicographic `&str` ordering of Rust (UTF-8 byte order coincides
with code-point order). -/
def charListLt : List Char → List Char → Bool
  | [], [] => false
  | [], _ :: _ => true
  | _ :: _, [] => false
  | a :: as, b :: bs => if a < b then true else if b < a then false else charListLt as bs

/-- `a < b` on Rust `&str`. -/
def strLt (a b : String) : Bool := charListLt a.data b.data

/-- `is_stopping` (reader.rs lines 272-282), verbatim: with a
`SequenceNumber` end position it returns `true` exactly when the current
sequence number is lexicographically below the stop bound; any other end
position yields `true`. -/
def is_stopping (cur_seq_num : String) (split : KinesisSplit) : Bool :=
  match split.end_position with
  | .sequenceNumber stopping_seq_num =>
    if strLt cur_seq_num stopping_seq_num then true else false
  | _ => true

/-- The `for record in records` loop of `next` (reader.rs lines 101-113):
while `is_stopping` holds, update `latest_sequence_num` and push the
message; at the first record where it fails, return what was collected. -/
def processRecords (split : KinesisSplit) (shard_id : String) :
    String → List Record → List SourceMessage → String × List SourceMessage
  | latest, [], acc => (latest, acc)
  | latest, rec :: rest, acc =>
    if is_stopping rec.sequence_number split then
      processRecords split shard_id rec.sequence_number rest
        (acc ++ [mkMessage shard_id rec])
    else (latest, acc)

/-- The request `renew_shard_iter` (reader.rs lines 206-223) sends:
`AfterSequenceNumber` anchored at `latest_sequence_num`. -/
def renewReq (r : KinesisSplitReader) : ShardIteratorReq :=
  ⟨r.stream_name, r.shard_id, .afterSequenceNumber, Option.none,
    Option.some r.latest_sequence_num⟩

/-- `renew_shard_iter`: on success the shard iterator is replaced by the
(optional) returned one; on failure the reader is left unchanged. -/
def renew_shard_iter (env : Env) (r : KinesisSplitReader) :
    Except String KinesisSplitReader :=
  match env.getShardIterator (renewReq r) with
  | .ok tok => .ok { r with shard_iter := tok }
  | .error e => .error e

/-- `KinesisSplitReader::next` (reader.rs lines 55-116).  The source's
unbounded `loop`/recursion is indexed by fuel; each service call is
recorded in the returned trace.  Branches, in source order: missing
iterator fails; `DispatchFailure` fails; an expired iterator renews and
re-enters `next`; throughput-exceeded and any other error fail; on
success the iterator is replaced by the response's next iterator, an
empty batch sleeps 200ms (blocking) and continues the loop, and a
non-empty batch runs the emission loop. -/
def nextRun (env : Env) : Nat → KinesisSplitReader → NextRes × List Effect
  | 0, r => (.fuelOut r, [])
  | fuel + 1, r =>
    match r.shard_iter with
    | Option.none => (.fail r (.invalidShardIter r.shard_id), [])
    | Option.some iter =>
      match env.getRecords iter with
      | .error (.dispatchFailure m) => (.fail r (.dispatch m), [.fetch iter])
      | .error .expiredIterator =>
        match renew_shard_iter env r with
        | .error e => (.fail r (.renewErr e), [.fetch iter, .getShardIter (renewReq r)])
        | .ok r2 =>
          let rec_res := nextRun env fuel r2
          (rec_res.1, .fetch iter :: .getShardIter (renewReq r) :: rec_res.2)
      | .error (.throughputExceeded m) => (.fail r (.throughput m), [.fetch iter])
      | .error (.otherErr m) => (.fail r (.otherE m), [.fetch iter])
      | .ok out =>
        let r1 : KinesisSplitReader := { r with shard_iter := out.next_shard_iterator }
        let records := out.records.getD []
        if records.isEmpty then
          let rec_res := nextRun env fuel r1
          (rec_res.1, .fetch iter :: .sleepBlockingMs 200 :: rec_res.2)
        else
          match r1.assigned_split with
          | Option.none => (.panicked, [.fetch iter])
          | Option.some sp =>
            let p := processRecords sp r1.shard_id r1.latest_sequence_num records []
            (.msgs { r1 with latest_sequence_num := p.1 } p.2, [.fetch iter])

/-- `ConnectorState`: identifier (split id), start offset, end offset. -/
structure ConnectorState where
  identifier : String
  start_offset : String
  end_offset : String
  deriving Repr, DecidableEq

/-- The two `ConnectorStateV2` cases `KinesisSplitReader::new` matches. -/
inductive ConnectorStateV2 where
  | state (s : ConnectorState)
  | splits (ss : List KinesisSplit)
  deriving Repr, DecidableEq

/-- `KinesisSplitReader::new` (reader.rs lines 121-189).  The base reader
has empty shard id, empty latest sequence number, no iterator and no
assigned split.  In the `State` case, an empty `start_offset` defaults to
`Earliest` (an iterator request of type `TrimHorizon`) and a non-empty
one to `SequenceNumber` (type `AfterSequenceNumber`); the end offset
defaults to `None` unless non-empty.  The `Splits` case of the source is
an empty block: the base reader is returned untouched. -/
def newReader (stream_name : String) (st : ConnectorStateV2) (env : Env) :
    Except String KinesisSplitReader × List Effect :=
  let base : KinesisSplitReader := ⟨stream_name, "", "", Option.none, Option.none⟩
  match st with
  | .state s =>
    let split_id := s.identifier
    let start_offset : KinesisOffset :=
      if s.start_offset = "" then .earliest else .sequenceNumber s.start_offset
    let end_offset : KinesisOffset :=
      if s.end_offset = "" then .none else .sequenceNumber s.end_offset
    let split : KinesisSplit := ⟨split_id, start_offset, end_offset⟩
    match start_offset with
    | .earliest =>
      let req : ShardIteratorReq :=
        ⟨stream_name, split_id, .trimHorizon, Option.none, Option.none⟩
      match env.getShardIterator req with
      | .error e => (.error e, [.getShardIter req])
      | .ok tok =>
        (.ok { base with assigned_split := Option.some split, shard_iter := tok },
          [.getShardIter req])
    | .sequenceNumber seq =>
      let req : ShardIteratorReq :=
        ⟨stream_name, split_id, .afterSequenceNumber, Option.none, Option.some seq⟩
      match env.getShardIterator req with
      | .error e => (.error e, [.getShardIter req])
      | .ok tok =>
        (.ok { base with assigned_split := Option.some split, shard_iter := tok },
          [.getShardIter req])
    | _ =>
      (.error "invalid KinesisOffset, expect either KinesisOffset::Earliest or KinesisOffset::SequenceNumber", [])
  | .splits _ => (.ok base, [])

/-- A shard as returned by `list_shards` (`shard_id` is optional in the
SDK; the source applies `unwrap_or_default`). -/
structure Shard where
  shard_id : Option String
  deriving Repr, DecidableEq

/-- One `list_shards` response page: optional shard list, optional
continuation token. -/
structure ListShardsOutput where
  shards : Option (List Shard)
  next_token : Option String
  deriving Repr, DecidableEq

/-- The split built from a discovered shard (client.rs lines 75-79). -/
def toSplit (x : Shard) : KinesisSplit :=
  ⟨x.shard_id.getD "", .none, .none⟩

/-- The `loop` of `KinesisSplitEnumerator::list_splits` (client.rs lines
50-80) over a scripted sequence of response pages: each iteration
consumes one page; an absent shard list fails with the discovery error;
a present continuation token continues with the next page, an absent one
returns the collected shards mapped to splits.  An exhausted script (the
loop would issue a call with no scripted response) is a model artifact
and fails. -/
def listSplitsGo (stream_name : String) (acc : List Shard) :
    List ListShardsOutput → Except String (List KinesisSplit)
  | [] => .error "model: no scripted response"
  | page :: rest =>
    match page.shards with
    | Option.none => .error ("no shards in stream " ++ stream_name)
    | Option.some shard =>
      let acc2 := acc ++ shard
      match page.next_token with
      | Option.some _ => listSplitsGo stream_name acc2 rest
      | Option.none => .ok (acc2.map toSplit)

/-- `KinesisSplitEnumerator::list_splits` (client.rs lines 46-81). -/
def list_splits (stream_name : String) (pages : List ListShardsOutput) :
    Except String (List KinesisSplit) :=
  listSplitsGo stream_name [] pages

/-- A well-formed pagination script: non-empty, every page but the last
carries a continuation token, the last does not. -/
def wellPaged : List ListShardsOutput → Bool
  | [] => false
  | [p] => p.next_token.isNone
  | p :: q :: rest => p.next_token.isSome && wellPaged (q :: rest)

/-- All shards reported across a page sequence, in order. -/
def allShards (pages : List ListShardsOutput) : List Shard :=
  pages.flatMap fun p => p.shards.getD []

/-- Occurrence check of `pat` inside `l`, by scanning suffixes. -/
def listContains (pat : List Char) : List Char → Bool
  | [] => pat.isEmpty
  | c :: rest => pat.isPrefixOf (c :: rest) || listContains pat rest

/-- Whether `pat` occurs as a contiguous substring of `s`. -/
def containsStr (s pat : String) : Bool :=
  listContains pat.data s.data

/-- The value `latest_sequence_num` holds after emitting the records of
`l` in order, starting from `d`. -/
def latestAfter (d : String) : List Record → String
  | [] => d
  | rec :: rest => latestAfter rec.sequence_number rest

/-- The per-record predicate of the emission loop. -/
def stopQ (split : KinesisSplit) (rec : Record) : Bool :=
  is_stopping rec.sequence_number split

/-- Strict ordering of records by sequence number, in the program's own
string comparison. -/
abbrev seqLt (a b : Record) : Prop :=
  strLt a.sequence_number b.sequence_number = true

/-- A split with a stop bound at sequence number "102". -/
def split102 : KinesisSplit := ⟨"shard-1", .none, .sequenceNumber "102"⟩

/-- An unbounded split. -/
def splitOpen : KinesisSplit := ⟨"shard-1", .none, .none⟩

/-- Service for the stop-boundary run: "tok1" yields the batch
["100","101","102","103"] with next token "tok2"; "tok2" yields a batch
past the bound with next token "tok3". -/
def envC1 : Env where
  getRecords t :=
    if t = "tok1" then
      .ok ⟨Option.some [⟨"100", "a"⟩, ⟨"101", "b"⟩, ⟨"102", "c"⟩, ⟨"103", "d"⟩],
        Option.some "tok2"⟩
    else if t = "tok2" then
      .ok ⟨Option.some [⟨"104", "e"⟩], Option.some "tok3"⟩
    else .error (.otherErr "unknown token")
  getShardIterator _ := .error "unused"

/-- Service that is never called. -/
def envIdle : Env where
  getRecords _ := .error (.otherErr "unused")
  getShardIterator _ := .error "unused"

/-- Service whose every fetch is throughput-exceeded. -/
def envTp : Env where
  getRecords _ := .error (.throughputExceeded "Rate exceeded")
  getShardIterator _ := .error "unused"

/-- Reader state used in the throughput-exceeded run. -/
def rTp : KinesisSplitReader :=
  ⟨"events-stream", "shard-000001", "100", Option.some "tokA", Option.some splitOpen⟩

/-- Service for the backoff run: "tok1" yields an empty batch with next
token "tok2"; any other fetch fails. -/
def envSleep : Env where
  getRecords t :=
    if t = "tok1" then .ok ⟨Option.some [], Option.some "tok2"⟩
    else .error (.otherErr "end")
  getShardIterator _ := .error "unused"

/-- Service for the closed-partition run: "tok1" yields one record and no
next token. -/
def envC6 : Env where
  getRecords t :=
    if t = "tok1" then .ok ⟨Option.some [⟨"100", "a"⟩], Option.none⟩
    else .error (.otherErr "unknown token")
  getShardIterator _ := .error "unused"

/-- Service whose every fetch reports an expired iterator and whose every
iterator request yields token "tokR". -/
def envExp : Env where
  getRecords _ := .error .expiredIterator
  getShardIterator _ := .ok (Option.some "tokR")

/-- Initial reader of the persistent-expiry run. -/
def rExp0 : KinesisSplitReader :=
  ⟨"events", "shard-1", "100", Option.some "tokA", Option.some splitOpen⟩

/-- The same reader after one renewal against `envExp`. -/
def rExp1 : KinesisSplitReader :=
  ⟨"events", "shard-1", "100", Option.some "tokR", Option.some splitOpen⟩

/-- Service granting TrimHorizon iterators, for fresh-start construction. -/
def envTrim : Env where
  getRecords _ := .error (.otherErr "unused")
  getShardIterator req :=
    if req.iter_type = .trimHorizon then .ok (Option.some "tokT") else .error "bad request"

/-- Modelled from the spec: the upstream service of §6 during cursor
renewal over one partition log, absent from src (only the SDK calls
appear there).  Per §4.2, `GetCursor` in `AfterSequenceNumber` mode
anchors the new token strictly after the given sequence number: the
renewed token `tokB` serves exactly the records of `log` positioned
after the anchor `s`, while the expired token `tokA` fails every fetch
with `ExpiredCursor`. -/
def renewalEnv (log : List Record) (tokA tokB s : String) : Env where
  getRecords t :=
    if t = tokA then .error .expiredIterator
    else if t = tokB then
      .ok ⟨Option.some (log.dropWhile fun rec => ! strLt s rec.sequence_number),
        Option.none⟩
    else .error (.otherErr "unknown token")
  getShardIterator req :=
    if req.iter_type = .afterSequenceNumber ∧ req.seq_num = Option.some s then
      .ok (Option.some tokB)
    else .error "unsupported"

theorem charListLt_trans : ∀ {x y z : List Char}, charListLt x y = true →
    charListLt y z = true → charListLt x z = true := by
  intro x
  induction x with
  | nil =>
    intro y z hxy hyz
    cases y with
    | nil => exact hyz
    | cons b bs =>
      cases z with
      | nil => simp [charListLt] at hyz
      | cons c cs => simp [charListLt]
  | cons a as ih =>
    intro y z hxy hyz
    cases y with
    | nil => simp [charListLt] at hxy
    | cons b bs =>
      cases z with
      | nil => simp [charListLt] at hyz
      | cons c cs =>
        simp only [charListLt] at hxy hyz ⊢
        by_cases hab : a < b
        · by_cases hbc : b < c
          · simp [lt_trans hab hbc]
          · by_cases hcb : c < b
            · simp [hbc, hcb] at hyz
            · have hbceq : b = c := le_antisymm (not_lt.mp hcb) (not_lt.mp hbc)
              subst hbceq
              simp [hab]
        · by_cases hba : b < a
          · simp [hab, hba] at hxy
          · have habeq : a = b := le_antisymm (not_lt.mp hba) (not_lt.mp hab)
            subst habeq
            simp only [hab, if_neg, ite_self] at hxy
            by_cases hac : a < c
            · simp [hac]
            · by_cases hca : c < a
              · simp [hac, hca] at hyz
              · have haceq : a = c := le_antisymm (not_lt.mp hca) (not_lt.mp hac)
                subst haceq
                simp only [hac, if_neg, ite_self] at hyz ⊢
                simp only [lt_irrefl, if_false] at hxy hyz ⊢
                exact ih hxy hyz

theorem strLt_trans {x y z : String} (hxy : strLt x y = true)
    (hyz : strLt y z = true) : strLt x z = true :=
  charListLt_trans hxy hyz

theorem processRecords_eq (split : KinesisSplit) (sid : String) :
    ∀ (l : List Record) (latest : String) (acc : List SourceMessage),
    processRecords split sid latest l acc =
      (latestAfter latest (l.takeWhile (stopQ split)),
        acc ++ (l.takeWhile (stopQ split)).map (mkMessage sid)) := by
  intro l
  induction l with
  | nil => intro latest acc; simp [processRecords, latestAfter]
  | cons rec rest ih =>
    intro latest acc
    cases h : is_stopping rec.sequence_number split with
    | true =>
      have hq : stopQ split rec = true := h
      simp only [processRecords, h, if_true, List.takeWhile_cons, hq]
      rw [ih]
      simp [latestAfter]
    | false =>
      have hq : stopQ split rec = false := h
      simp [processRecords, h, List.takeWhile_cons, hq, latestAfter]

theorem mem_takeWhile_pred (p : Record → Bool) :
    ∀ (l : List Record) (rec : Record), rec ∈ l.takeWhile p → p rec = true := by
  intro l
  induction l with
  | nil => intro rec h; simp [List.takeWhile] at h
  | cons a rest ih =>
    intro rec h
    cases ha : p a with
    | true =>
      rw [List.takeWhile_cons, if_pos ha] at h
      rcases List.mem_cons.mp h with heq | hmem
      · exact heq ▸ ha
      · exact ih rec hmem
    | false =>
      rw [List.takeWhile_cons, if_neg (by simp [ha])] at h
      simp at h

theorem mem_takeWhile_of_pred (p : Record → Bool)
    (hcl : ∀ a b : Record, seqLt a b → p b = true → p a = true) :
    ∀ (l : List Record), l.Pairwise seqLt →
      ∀ rec ∈ l, p rec = true → rec ∈ l.takeWhile p := by
  intro l
  induction l with
  | nil => intro _ rec h; simp at h
  | cons a rest ih =>
    intro hpw rec hmem hp
    rcases List.pairwise_cons.mp hpw with ⟨hlt, hpw2⟩
    cases ha : p a with
    | true =>
      rw [List.takeWhile_cons, if_pos ha]
      rcases List.mem_cons.mp hmem with heq | hmem2
      · exact heq ▸ List.mem_cons_self a _
      · exact List.mem_cons_of_mem a (ih hpw2 rec hmem2 hp)
    | false =>
      exfalso
      rcases List.mem_cons.mp hmem with heq | hmem2
      · rw [heq] at hp; rw [hp] at ha; exact Bool.true_eq_false.mp ha
      · have : p a = true := hcl a rec (hlt rec hmem2) hp
        rw [this] at ha; exact Bool.true_eq_false.mp ha

theorem mem_dropWhile_pred_false (p : Record → Bool)
    (hcl : ∀ a b : Record, seqLt a b → p b = true → p a = true) :
    ∀ (l : List Record), l.Pairwise seqLt →
      ∀ rec ∈ l.dropWhile p, p rec = false := by
  intro l
  induction l with
  | nil => intro _ rec h; simp [List.dropWhile] at h
  | cons a rest ih =>
    intro hpw rec hmem
    rcases List.pairwise_cons.mp hpw with ⟨hlt, hpw2⟩
    cases ha : p a with
    | true =>
      rw [List.dropWhile_cons, if_pos ha] at hmem
      exact ih hpw2 rec hmem
    | false =>
      rw [List.dropWhile_cons, if_neg (by simp [ha])] at hmem
      rcases List.mem_cons.mp hmem with heq | hmem2
      · exact heq ▸ ha
      · cases hr : p rec with
        | true =>
          have : p a = true := hcl a rec (hlt rec hmem2) hr
          rw [this] at ha; exact absurd ha (by simp)
        | false => rfl

theorem mem_dropWhile_of_pred_false (p : Record → Bool) :
    ∀ (l : List Record) (rec : Record), rec ∈ l → p rec = false →
      rec ∈ l.dropWhile p := by
  intro l
  induction l with
  | nil => intro rec h; simp at h
  | cons a rest ih =>
    intro rec hmem hp
    cases ha : p a with
    | true =>
      rw [List.dropWhile_cons, if_pos ha]
      rcases List.mem_cons.mp hmem with heq | hmem2
      · rw [heq] at hp; rw [hp] at ha; exact absurd ha (by simp)
      · exact ih rec hmem2 hp
    | false =>
      rw [List.dropWhile_cons, if_neg (by simp [ha])]
      exact hmem

theorem takeWhile_all (p : Record → Bool) :
    ∀ (l : List Record), (∀ x ∈ l, p x = true) → l.takeWhile p = l := by
  intro l
  induction l with
  | nil => intro _; rfl
  | cons a rest ih =>
    intro h
    rw [List.takeWhile_cons, if_pos (h a (List.mem_cons_self a rest))]
    rw [ih fun x hx => h x (List.mem_cons_of_mem a hx)]

theorem fetch_mem_nextRun (env : Env) (n : Nat) (r : KinesisSplitReader)
    (t : String) (h : r.shard_iter = Option.some t) :
    Effect.fetch t ∈ (nextRun env (n + 1) r).2 := by
  simp only [nextRun, h]
  cases env.getRecords t with
  | error e =>
    cases e with
    | dispatchFailure m => simp
    | expiredIterator =>
      cases renew_shard_iter env r with
      | error e2 => simp
      | ok r2 => simp
    | throughputExceeded m => simp
    | otherErr m => simp
  | ok out =>
    by_cases hemp : (out.records.getD []).isEmpty
    · simp [hemp]
    · cases hsp : ({ r with shard_iter := out.next_shard_iterator } :
          KinesisSplitReader).assigned_split with
      | none => simp [hemp, hsp]
      | some sp => simp [hemp, hsp]

/-- Claim C2 (code_bug evidence): constructing a reader from a fresh
`Split` (the `ConnectorStateV2::Splits` case) leaves the base reader
untouched — no iterator request is issued, `shard_iter` stays `none` —
and the first call to `next` fails with the invalid-shard-iter error
(empty shard id) without issuing any fetch, instead of being Ready. -/
theorem splits_construction_uninitialized :
    newReader "events" (.splits [⟨"shard-1", .none, .none⟩]) envIdle =
      (.ok ⟨"events", "", "", Option.none, Option.none⟩, []) ∧
    nextRun envIdle 5 ⟨"events", "", "", Option.none, Option.none⟩ =
      (.fail ⟨"events", "", "", Option.none, Option.none⟩
        (.invalidShardIter ""), []) :=
  ⟨rfl, rfl⟩

/-- Claim C9 (code_bug evidence): the backoff taken after an empty fetch
with a present next token is the blocking `thread::sleep(200ms)` of
reader.rs line 96 (recorded as `sleepBlockingMs`), executed on the
worker thread between the two fetches — not a task-local suspension. -/
theorem backoff_blocking_sleep :
    (nextRun envSleep 2 ⟨"events", "shard-1", "", Option.some "tok1",
        Option.some splitOpen⟩).2 =
      [.fetch "tok1", .sleepBlockingMs 200, .fetch "tok2"] := by
  decide

/-- Claim C8 (amended): when a fetch fails with ThroughputExceeded, the
reader performs no internal retry and no state change — `next` returns
at once with the service error after exactly one fetch, the reader state
unchanged; the surfaced error is the service's own message. -/
theorem throughput_error_immediate (env : Env) (sn sid ls tok m : String)
    (spo : Option KinesisSplit) (n : Nat)
    (h : env.getRecords tok = .error (.throughputExceeded m)) :
    nextRun env (n + 1) ⟨sn, sid, ls, Option.some tok, spo⟩ =
      (.fail ⟨sn, sid, ls, Option.some tok, spo⟩ (.throughput m),
        [.fetch tok]) := by
  simp [nextRun, h]

/-- Claim C8 witness: the amended theorem at a concrete input. -/
theorem throughput_error_immediate_witness :
    nextRun envTp 1 rTp = (.fail rTp (.throughput "Rate exceeded"), [.fetch "tokA"]) :=
  throughput_error_immediate envTp "events-stream" "shard-000001" "100" "tokA"
    "Rate exceeded" (Option.some splitOpen) 0 rfl

/-- Claim C8 counterexample: the error surfaced on ThroughputExceeded
renders as the raw service message; it contains neither the partition id
"shard-000001" nor the stream name "events-stream" of the reader that
failed, so the error does not carry that context. -/
theorem throughput_error_context_counterexample :
    nextRun envTp 1 rTp = (.fail rTp (.throughput "Rate exceeded"), [.fetch "tokA"]) ∧
    renderError (.throughput "Rate exceeded") = "Rate exceeded" ∧
    containsStr (renderError (.throughput "Rate exceeded")) "shard-000001" = false ∧
    containsStr (renderError (.throughput "Rate exceeded")) "events-stream" = false := by
  refine ⟨by decide, rfl, by decide, by decide⟩

/-- Claim C3 counterexample: a single list page that reports zero
partitions (a present but empty shard list, with no continuation token)
makes `list_splits` return Ok with the empty collection — no
DiscoveryError is raised. -/
theorem zero_partition_empty_ok :
    list_splits "events" [⟨Option.some [], Option.none⟩] = .ok [] := rfl

theorem listSplitsGo_absent_err (stream : String) (p : ListShardsOutput)
    (rest : List ListShardsOutput) (hp : p.shards = Option.none) :
    ∀ (front : List ListShardsOutput) (acc : List Shard),
      (∀ q ∈ front, (∃ l, q.shards = Option.some l) ∧ q.next_token.isSome = true) →
      listSplitsGo stream acc (front ++ p :: rest) =
        .error ("no shards in stream " ++ stream) := by
  intro front
  induction front with
  | nil => intro acc _; simp [listSplitsGo, hp]
  | cons q qs ih =>
    intro acc hf
    rcases hf q (List.mem_cons_self q qs) with ⟨⟨l, hl⟩, ht⟩
    rcases Option.isSome_iff_exists.mp ht with ⟨t, htok⟩
    simp only [List.cons_append, listSplitsGo, hl, htok]
    exact ih _ fun q2 hq2 => hf q2 (List.mem_cons_of_mem q hq2)

/-- Claim C3 (amended): a list page whose shard field is absent makes
`list_splits` fail with the discovery error "no shards in stream ..."
(pages before it having present shard lists and continuation tokens);
a present-but-empty shard list is, however, aggregated normally, so
`list_splits` can return an empty collection. -/
theorem absent_shards_page_fails (stream : String) (front : List ListShardsOutput)
    (p : ListShardsOutput) (rest : List ListShardsOutput)
    (hf : ∀ q ∈ front, (∃ l, q.shards = Option.some l) ∧ q.next_token.isSome = true)
    (hp : p.shards = Option.none) :
    list_splits stream (front ++ p :: rest) =
      .error ("no shards in stream " ++ stream) :=
  listSplitsGo_absent_err stream p rest hp front [] hf

/-- Claim C3 witness: the amended theorem at a concrete input. -/
theorem absent_shards_page_fails_witness :
    list_splits "events"
        [⟨Option.some [⟨Option.some "s1"⟩], Option.some "t1"⟩,
         ⟨Option.none, Option.none⟩] =
      .error ("no shards in stream " ++ "events") :=
  absent_shards_page_fails "events"
    [⟨Option.some [⟨Option.some "s1"⟩], Option.some "t1"⟩]
    ⟨Option.none, Option.none⟩ []
    (by intro q hq
        simp only [List.mem_singleton] at hq
        subst hq
        exact ⟨⟨[⟨Option.some "s1"⟩], rfl⟩, rfl⟩)
    rfl

/-- Claim C10: a restored checkpoint state whose `start_offset` is the
empty string is silently defaulted to `Earliest`: construction issues a
single `TrimHorizon` iterator request for the split's partition, assigns
the split with `start_position = Earliest`, installs the returned token,
and succeeds — it neither fails with a malformed-checkpoint error nor
anchors at any recorded position. -/
theorem empty_start_offset_trim_horizon (stream sid eoff : String)
    (tok : Option String) (env : Env)
    (h : env.getShardIterator ⟨stream, sid, .trimHorizon, Option.none, Option.none⟩ =
      .ok tok) :
    newReader stream (.state ⟨sid, "", eoff⟩) env =
      (.ok ⟨stream, "", "", tok, Option.some ⟨sid, .earliest,
          if eoff = "" then .none else .sequenceNumber eoff⟩⟩,
        [.getShardIter ⟨stream, sid, .trimHorizon, Option.none, Option.none⟩]) := by
  simp [newReader, h]

/-- Claim C10 witness: the theorem at a concrete input. -/
theorem empty_start_offset_trim_horizon_witness :
    newReader "events" (.state ⟨"shard-1", "", ""⟩) envTrim =
      (.ok ⟨"events", "", "", Option.some "tokT",
          Option.some ⟨"shard-1", .earliest, .none⟩⟩,
        [.getShardIter ⟨"events", "shard-1", .trimHorizon, Option.none, Option.none⟩]) := by
  exact empty_start_offset_trim_horizon "events" "shard-1" "" (Option.some "tokT")
    envTrim rfl

theorem is_stopping_of_end_none {sp : KinesisSplit}
    (h : sp.end_position = KinesisOffset.none) (c : String) :
    is_stopping c sp = true := by
  unfold is_stopping
  rw [h]

/-- Claim C6 (amended): when a successful fetch carries no next token,
the reader delivers that response's batch, and its iterator becomes
`none`; but instead of an orderly terminal state, every subsequent call
fails with the invalid-shard-iter error (issuing no further fetch). -/
theorem closed_partition_then_error (env : Env) (sn sid ls tok : String)
    (sp : KinesisSplit) (out : GetRecordsOutput) (recs : List Record) (n m : Nat)
    (hfetch : env.getRecords tok = .ok out)
    (hnone : out.next_shard_iterator = Option.none)
    (hrecs : out.records.getD [] = recs)
    (hne : recs ≠ [])
    (hend : sp.end_position = KinesisOffset.none) :
    nextRun env (n + 1) ⟨sn, sid, ls, Option.some tok, Option.some sp⟩ =
      (.msgs ⟨sn, sid, latestAfter ls recs, Option.none, Option.some sp⟩
        (recs.map (mkMessage sid)), [.fetch tok]) ∧
    nextRun env (m + 1) ⟨sn, sid, latestAfter ls recs, Option.none, Option.some sp⟩ =
      (.fail ⟨sn, sid, latestAfter ls recs, Option.none, Option.some sp⟩
        (.invalidShardIter sid), []) := by
  constructor
  · have hemp : recs.isEmpty = false := by
      cases recs with
      | nil => exact absurd rfl hne
      | cons a l => rfl
    have htw : recs.takeWhile (stopQ sp) = recs :=
      takeWhile_all _ recs fun x _ => is_stopping_of_end_none hend x.sequence_number
    simp [nextRun, hfetch, hnone, hrecs, hemp, processRecords_eq, htw]
  · simp [nextRun]

/-- Claim C6 witness: the amended theorem at a concrete input. -/
theorem closed_partition_then_error_witness :
    nextRun envC6 1 ⟨"events", "shard-1", "", Option.some "tok1", Option.some splitOpen⟩ =
      (.msgs ⟨"events", "shard-1", latestAfter "" [⟨"100", "a"⟩], Option.none,
          Option.some splitOpen⟩
        ([⟨"100", "a"⟩].map (mkMessage "shard-1")), [.fetch "tok1"]) :=
  (closed_partition_then_error envC6 "events" "shard-1" "" "tok1" splitOpen
    ⟨Option.some [⟨"100", "a"⟩], Option.none⟩ [⟨"100", "a"⟩] 0 0 rfl rfl rfl
    (by decide) rfl).1

/-- Claim C6 counterexample: after the fetch whose response lacks a next
token delivers its batch, the subsequent call returns an error
(`invalid shard iter`) — i.e. the Rust `next()` returns `Err`, not an
orderly termination signal. -/
theorem closed_partition_counterexample :
    nextRun envC6 1 ⟨"events", "shard-1", "", Option.some "tok1", Option.some splitOpen⟩ =
      (.msgs ⟨"events", "shard-1", "100", Option.none, Option.some splitOpen⟩
        [⟨"shard-1", "100", "a"⟩], [.fetch "tok1"]) ∧
    nextRun envC6 1 ⟨"events", "shard-1", "100", Option.none, Option.some splitOpen⟩ =
      (.fail ⟨"events", "shard-1", "100", Option.none, Option.some splitOpen⟩
        (.invalidShardIter "shard-1"), []) :=
  ⟨by decide, by decide⟩

theorem listSplitsGo_ok (stream : String) :
    ∀ (pages : List ListShardsOutput) (acc : List Shard),
      wellPaged pages = true →
      (∀ p ∈ pages, ∃ l, p.shards = Option.some l) →
      listSplitsGo stream acc pages = .ok ((acc ++ allShards pages).map toSplit) := by
  intro pages
  induction pages with
  | nil => intro acc h _; simp [wellPaged] at h
  | cons p rest ih =>
    intro acc hw hs
    rcases hs p (List.mem_cons_self p rest) with ⟨l, hl⟩
    obtain ⟨pshards, ptok⟩ := p
    replace hl : pshards = Option.some l := hl
    subst hl
    cases rest with
    | nil =>
      have htok : ptok = Option.none := by
        simpa [wellPaged, Option.isNone_iff_eq_none] using hw
      subst htok
      simp [listSplitsGo, allShards]
    | cons q qs =>
      have hw2 : ptok.isSome = true ∧ wellPaged (q :: qs) = true := by
        simpa [wellPaged] using hw
      rcases Option.isSome_iff_exists.mp hw2.1 with ⟨t, htok⟩
      subst htok
      have hstep : listSplitsGo stream acc
          (⟨Option.some l, Option.some t⟩ :: q :: qs) =
          listSplitsGo stream (acc ++ l) (q :: qs) := rfl
      rw [hstep, ih _ hw2.2 fun x hx => hs x (List.mem_cons_of_mem _ hx)]
      simp [allShards, List.append_assoc]

/-- Claim C7: for a well-formed pagination script (every page but the
final one carries a continuation token), with every page's shard field
present, `list_splits` succeeds and returns one split per shard across
all pages, in page order, each with both positions `None`; when the
discovered shard ids are distinct, every discovered shard id occurs
exactly once in the result. -/
theorem pagination_completeness (stream : String) (pages : List ListShardsOutput)
    (hw : wellPaged pages = true)
    (hs : ∀ p ∈ pages, ∃ l, p.shards = Option.some l)
    (hnd : ((allShards pages).map fun x => x.shard_id.getD "").Nodup) :
    list_splits stream pages = .ok ((allShards pages).map toSplit) ∧
    (∀ sp ∈ (allShards pages).map toSplit,
        sp.start_position = KinesisOffset.none ∧
        sp.end_position = KinesisOffset.none) ∧
    (∀ x ∈ allShards pages,
        (((allShards pages).map toSplit).map fun sp => sp.shard_id).count
          (x.shard_id.getD "") = 1) := by
  refine ⟨?_, ?_, ?_⟩
  · simpa [list_splits] using listSplitsGo_ok stream pages [] hw hs
  · intro sp hsp
    rcases List.mem_map.mp hsp with ⟨x, _, rfl⟩
    exact ⟨rfl, rfl⟩
  · intro x hx
    have hmm : (((allShards pages).map toSplit).map fun sp => sp.shard_id) =
        (allShards pages).map fun y => y.shard_id.getD "" := by
      rw [List.map_map]; rfl
    rw [hmm]
    exact List.count_eq_one_of_mem hnd (List.mem_map_of_mem _ hx)

/-- Claim C7 witness: the theorem at a concrete two-page script. -/
theorem pagination_completeness_witness :
    list_splits "events"
        [⟨Option.some [⟨Option.some "s1"⟩, ⟨Option.some "s2"⟩], Option.some "t1"⟩,
         ⟨Option.some [⟨Option.some "s3"⟩], Option.none⟩] =
      .ok [⟨"s1", .none, .none⟩, ⟨"s2", .none, .none⟩, ⟨"s3", .none, .none⟩] :=
  (pagination_completeness "events"
    [⟨Option.some [⟨Option.some "s1"⟩, ⟨Option.some "s2"⟩], Option.some "t1"⟩,
     ⟨Option.some [⟨Option.some "s3"⟩], Option.none⟩]
    (by decide)
    (by intro p hp
        simp only [List.mem_cons, List.mem_singleton] at hp
        rcases hp with h | h | h
        · exact ⟨[⟨Option.some "s1"⟩, ⟨Option.some "s2"⟩], by rw [h]⟩
        · exact ⟨[⟨Option.some "s3"⟩], by rw [h]⟩
        · cases h)
    (by decide)).1

theorem stopQ_seq {sp : KinesisSplit} {stop : String}
    (h : sp.end_position = KinesisOffset.sequenceNumber stop) :
    stopQ sp = fun rec => strLt rec.sequence_number stop := by
  funext rec
  unfold stopQ is_stopping
  rw [h]
  cases hc : strLt rec.sequence_number stop <;> simp [hc]

/-- Claim C1 (amended): a non-empty fetched batch against an end bound
`SequenceNumber stop` makes the reader emit exactly the batch's maximal
prefix of records strictly below the bound, in batch order — for a
strictly increasing batch these are exactly the batch records below the
bound — stopping at the first record at or past the bound; but the
reader does not become terminal: it keeps the response's next iterator
and, when that iterator is present, the following call issues another
fetch. -/
theorem stop_boundary_emission (env : Env) (sn sid ls tok stop : String)
    (sp : KinesisSplit) (out : GetRecordsOutput) (recs : List Record) (n : Nat)
    (hend : sp.end_position = KinesisOffset.sequenceNumber stop)
    (hfetch : env.getRecords tok = .ok out)
    (hrecs : out.records.getD [] = recs)
    (hne : recs ≠ [])
    (hsorted : recs.Pairwise seqLt) :
    nextRun env (n + 1) ⟨sn, sid, ls, Option.some tok, Option.some sp⟩ =
      (.msgs ⟨sn, sid,
          latestAfter ls (recs.takeWhile fun rec => strLt rec.sequence_number stop),
          out.next_shard_iterator, Option.some sp⟩
        ((recs.takeWhile fun rec => strLt rec.sequence_number stop).map
          (mkMessage sid)),
        [.fetch tok]) ∧
    (∀ rec ∈ recs.takeWhile fun rec => strLt rec.sequence_number stop,
        strLt rec.sequence_number stop = true) ∧
    (∀ rec ∈ recs, strLt rec.sequence_number stop = true →
        rec ∈ recs.takeWhile fun rec => strLt rec.sequence_number stop) ∧
    (∀ t2, out.next_shard_iterator = Option.some t2 →
        Effect.fetch t2 ∈ (nextRun env 1 ⟨sn, sid,
            latestAfter ls (recs.takeWhile fun rec => strLt rec.sequence_number stop),
            out.next_shard_iterator, Option.some sp⟩).2) := by
  have hemp : recs.isEmpty = false := by
    cases recs with
    | nil => exact absurd rfl hne
    | cons a r2 => rfl
  have hq : stopQ sp = fun rec => strLt rec.sequence_number stop := stopQ_seq hend
  refine ⟨?_, ?_, ?_, ?_⟩
  · simp [nextRun, hfetch, hrecs, hemp, processRecords_eq, hq]
  · intro rec hmem
    exact mem_takeWhile_pred _ recs rec hmem
  · intro rec hmem hlt
    exact mem_takeWhile_of_pred _ (fun a b hab hb => strLt_trans hab hb) recs
      hsorted rec hmem hlt
  · intro t2 ht2
    exact fetch_mem_nextRun env 0 _ t2 ht2

/-- Claim C1 witness: the amended theorem at the claim's own example —
records ["100","101","102","103"], stop bound "102". -/
theorem stop_boundary_emission_witness :
    nextRun envC1 1 ⟨"events", "shard-1", "", Option.some "tok1",
        Option.some split102⟩ =
      (.msgs ⟨"events", "shard-1",
          latestAfter ""
            ([⟨"100", "a"⟩, ⟨"101", "b"⟩, ⟨"102", "c"⟩, ⟨"103", "d"⟩].takeWhile
              fun rec => strLt rec.sequence_number "102"),
          Option.some "tok2", Option.some split102⟩
        (([⟨"100", "a"⟩, ⟨"101", "b"⟩, ⟨"102", "c"⟩, ⟨"103", "d"⟩].takeWhile
            (fun rec => strLt rec.sequence_number "102")).map (mkMessage "shard-1")),
        [.fetch "tok1"]) :=
  (stop_boundary_emission envC1 "events" "shard-1" "" "tok1" "102" split102
    ⟨Option.some [⟨"100", "a"⟩, ⟨"101", "b"⟩, ⟨"102", "c"⟩, ⟨"103", "d"⟩],
      Option.some "tok2"⟩
    [⟨"100", "a"⟩, ⟨"101", "b"⟩, ⟨"102", "c"⟩, ⟨"103", "d"⟩] 0
    rfl rfl rfl (by decide) (by decide)).1

/-- Claim C1 counterexample: with the bound "102" the first call emits
exactly "100" and "101", but the reader does not stop: the very next
call issues a further fetch (trace `[.fetch "tok2"]`) and returns
`Ok(Some([]))` — there is no terminal Stopped state. -/
theorem stop_boundary_counterexample :
    nextRun envC1 1 ⟨"events", "shard-1", "", Option.some "tok1",
        Option.some split102⟩ =
      (.msgs ⟨"events", "shard-1", "101", Option.some "tok2", Option.some split102⟩
        [⟨"shard-1", "100", "a"⟩, ⟨"shard-1", "101", "b"⟩], [.fetch "tok1"]) ∧
    nextRun envC1 1 ⟨"events", "shard-1", "101", Option.some "tok2",
        Option.some split102⟩ =
      (.msgs ⟨"events", "shard-1", "101", Option.some "tok3", Option.some split102⟩
        [], [.fetch "tok2"]) :=
  ⟨by decide, by decide⟩

theorem nextRun_envExp_fix : ∀ n : Nat, (nextRun envExp n rExp1).1 = .fuelOut rExp1 := by
  intro n
  induction n with
  | zero => rfl
  | succ k ih =>
    have hstep : nextRun envExp (k + 1) rExp1 =
        ((nextRun envExp k rExp1).1,
          .fetch "tokR" :: .getShardIter (renewReq rExp1) ::
            (nextRun envExp k rExp1).2) := rfl
    rw [hstep]
    exact ih

/-- Claim C4 (code_bug evidence): against a service whose every fetch
reports an expired iterator, the reader does renew the cursor anchored
at `latest_sequence_num` ("100", AfterSequenceNumber) and retry — but
without any bound: for every fuel amount the run ends in fuel
exhaustion, never in an error after a fixed number of attempts. -/
theorem expired_cursor_unbounded_retry (n : Nat) :
    (nextRun envExp (n + 1) rExp0).1 = .fuelOut rExp1 ∧
    Effect.getShardIter ⟨"events", "shard-1", .afterSequenceNumber, Option.none,
        Option.some "100"⟩ ∈ (nextRun envExp (n + 1) rExp0).2 := by
  have hstep : nextRun envExp (n + 1) rExp0 =
      ((nextRun envExp n rExp1).1,
        .fetch "tokA" :: .getShardIter (renewReq rExp0) ::
          (nextRun envExp n rExp1).2) := rfl
  constructor
  · rw [hstep]
    exact nextRun_envExp_fix n
  · rw [hstep]
    have hreq : renewReq rExp0 =
        ⟨"events", "shard-1", .afterSequenceNumber, Option.none, Option.some "100"⟩ := rfl
    rw [hreq]
    exact List.mem_cons_of_mem _ (List.mem_cons_self _ _)

/-- Claim C5: a reader whose last emitted sequence number is `s` and
whose token `tokA` has expired renews via a request in
`AfterSequenceNumber` mode anchored exactly at `s`, obtains `tokB`, and
the retried fetch emits exactly the log records past `s`: every emitted
record is strictly above `s` (no re-emission at or below `s`) and every
log record strictly above `s` is served (no skip). -/
theorem renewal_transparency (log : List Record) (sn sid tokA tokB s : String)
    (n : Nat)
    (hne : tokA ≠ tokB)
    (hsorted : log.Pairwise seqLt)
    (hnonempty : (log.dropWhile fun rec => ! strLt s rec.sequence_number) ≠ []) :
    nextRun (renewalEnv log tokA tokB s) (n + 2)
        ⟨sn, sid, s, Option.some tokA, Option.some ⟨sid, .none, .none⟩⟩ =
      (.msgs ⟨sn, sid,
          latestAfter s (log.dropWhile fun rec => ! strLt s rec.sequence_number),
          Option.none, Option.some ⟨sid, .none, .none⟩⟩
        ((log.dropWhile fun rec => ! strLt s rec.sequence_number).map
          (mkMessage sid)),
        [.fetch tokA,
         .getShardIter ⟨sn, sid, .afterSequenceNumber, Option.none, Option.some s⟩,
         .fetch tokB]) ∧
    (∀ rec ∈ log.dropWhile fun rec => ! strLt s rec.sequence_number,
        strLt s rec.sequence_number = true) ∧
    (∀ rec ∈ log, strLt s rec.sequence_number = true →
        rec ∈ log.dropWhile fun rec => ! strLt s rec.sequence_number) := by
  have hne2 : ¬ (tokB = tokA) := fun h => hne h.symm
  have hemp : (log.dropWhile fun rec => ! strLt s rec.sequence_number).isEmpty
      = false := by
    cases hdw : log.dropWhile fun rec => ! strLt s rec.sequence_number with
    | nil => exact absurd hdw hnonempty
    | cons a l2 => rfl
  refine ⟨?_, ?_, ?_⟩
  · have htw : (log.dropWhile fun rec => ! strLt s rec.sequence_number).takeWhile
        (stopQ ⟨sid, .none, .none⟩) =
        log.dropWhile fun rec => ! strLt s rec.sequence_number :=
      takeWhile_all _ _ fun x _ => is_stopping_of_end_none rfl x.sequence_number
    simp [nextRun, renewalEnv, renew_shard_iter, renewReq, hne2, hemp,
      processRecords_eq, htw]
  · intro rec hmem
    have hfalse : (fun rec => ! strLt s rec.sequence_number) rec = false :=
      mem_dropWhile_pred_false _
        (fun a b hab hb => by
          cases hsa : strLt s a.sequence_number with
          | false => simp
          | true =>
            have hsb : strLt s b.sequence_number = true := strLt_trans hsa hab
            simp [hsb] at hb)
        log hsorted rec hmem
    simpa using hfalse
  · intro rec hmem hlt
    exact mem_dropWhile_of_pred_false _ log rec hmem (by simp [hlt])

/-- Claim C5 witness: the theorem at a concrete log — last emitted
sequence "100", log ["099","100","101","102"]; the retried fetch emits
exactly "101" and "102". -/
theorem renewal_transparency_witness :
    nextRun (renewalEnv [⟨"099", "p"⟩, ⟨"100", "q"⟩, ⟨"101", "r"⟩, ⟨"102", "t"⟩]
        "tokA" "tokB" "100") 2
        ⟨"events", "shard-1", "100", Option.some "tokA",
          Option.some ⟨"shard-1", .none, .none⟩⟩ =
      (.msgs ⟨"events", "shard-1",
          latestAfter "100"
            ([⟨"099", "p"⟩, ⟨"100", "q"⟩, ⟨"101", "r"⟩, ⟨"102", "t"⟩].dropWhile
              fun rec => ! strLt "100" rec.sequence_number),
          Option.none, Option.some ⟨"shard-1", .none, .none⟩⟩
        (([⟨"099", "p"⟩, ⟨"100", "q"⟩, ⟨"101", "r"⟩, ⟨"102", "t"⟩].dropWhile
            (fun rec => ! strLt "100" rec.sequence_number)).map
          (mkMessage "shard-1")),
        [.fetch "tokA",
         .getShardIter ⟨"events", "shard-1", .afterSequenceNumber, Option.none,
           Option.some "100"⟩,
         .fetch "tokB"]) :=
  (renewal_transparency [⟨"099", "p"⟩, ⟨"100", "q"⟩, ⟨"101", "r"⟩, ⟨"102", "t"⟩]
    "events" "shard-1" "tokA" "tokB" "100" 0
    (by decide) (by decide) (by decide)).1
